import Mathlib

/-!
Verification of the MonoWriter monochrome-plane residual coder
(src/encoder/MonoWriter.cpp) against its natural-language specification.

The development shallowly embeds the encoder-state functions of
`MonoWriter` — `simulate`, `writeTables`, `writeRowHeader`, `write`,
`designRowFilters`, `recurseCompress`, `computeResiduals`, the tile-size
search loop of `process`, and the chaos-level sweep of `designChaos` — as
executable Lean functions over an explicit encoder-state record.
Machine-word arithmetic is modelled with `Nat` plus explicit `% 2^w`
where the source truncates.

Code of the repository that is not under src/ (the `MonoChaos` chaos
model, the entropy-coder primitive, the header constants `SF_FIXED` and
`RECURSE_THRESH_COUNT`, and the `MonoReader` row-filter enum) is
modelled from the specification; each such definition carries a doc
comment starting with `Modelled from the spec:`.
-/

namespace MonoWriter

/-- Sentinel for a fully masked tile (src MASK_TILE = 255, also visible in
the bundled ImageRGBAWriter.hpp). -/
def MASK_TILE : Nat := 255

/-- Modelled from the spec: `MonoReader::RF_NOOP` lives in the decoder,
which is not under src/; the spec (§3, §4.6) orders the row filters as
`{RF_NOOP, RF_PREV}` and the writer emits the selector as one bit. -/
def RF_NOOP : Nat := 0

/-- Modelled from the spec: `MonoReader::RF_PREV`, the second row filter. -/
def RF_PREV : Nat := 1

/-- Modelled from the spec: `SF_FIXED`, the number of always-present
spatial predictors, is declared in MonoWriter.hpp which is not under
src/; the spec (§3) gives "up to `SF_FIXED` (≈4) always-present
predictors", so we take 4. -/
def SF_FIXED : Nat := 4

/-- Modelled from the spec: `RECURSE_THRESH_COUNT` is declared in
MonoWriter.hpp which is not under src/; the spec gives no value but its
scenario 6 ("tiles_count=1024 ≥ RECURSE_THRESH_COUNT") bounds it by
1024; we take 256. -/
def RECURSE_THRESH_COUNT : Nat := 256

/-- `BSR32(x) + 1` as used for the tile-bits field width: `BSR32` is a
bit-scan-reverse, i.e. `Nat.log2`. From MonoWriter.cpp, `process` and
`simulate` both compute
`range = max_bits - min_bits; if (range > 0) bits_bc = BSR32(range)+1`. -/
def tileBitsFieldBC (minBits maxBits : Nat) : Nat :=
  if 0 < maxBits - minBits then Nat.log2 (maxBits - minBits) + 1 else 0

/-- The row-filter residual code, repeated verbatim three times in the
source (`simulate`, `initializeEncoders`, `write`):
`rf = f + _filter_count - prev; if (rf >= _filter_count) rf -= _filter_count`.
The source computes in `u8`; for `prev < fc` and `f, fc ≤ 255` no wrap
occurs and the `Nat` translation is exact. -/
def rfCode (fc prev f : Nat) : Nat :=
  let rf := f + fc - prev
  if fc ≤ rf then rf - fc else rf

/-- Modelled from the spec: the `MonoChaos` state (§4.3) — one score byte
per column, a running `prev` for the row, and the implicit column cursor
of the source's pointer walk. `MonoChaos` itself is declared in the
decoder, which is not under src/. -/
structure ChaosSt where
  cols : Nat → Nat
  pos : Nat
  prev : Nat

/-- Modelled from the spec: `MonoChaos::start()` zeroes the per-column
scores. -/
def chaosStart : ChaosSt := ⟨fun _ => 0, 0, 0⟩

/-- Modelled from the spec: `MonoChaos::startRow()` resets the row
scratch (cursor and `prev`). -/
def chaosStartRow (c : ChaosSt) : ChaosSt := { c with pos := 0, prev := 0 }

/-- Modelled from the spec: the residual magnitude score
`SCORE[v] = min(v, num_syms − v)` (wraparound distance). -/
def residScore (ns r : Nat) : Nat := min r (ns - r)

/-- Modelled from the spec: `CHAOS_TABLE[sum]` is "`min(chaos_bin_count−1,
⌈log₂(sum+1)⌉)` or an equivalent monotone bucketization"; this is the
bucketization by bit length, written out so it evaluates by `decide`. -/
def chaosBucket (sum : Nat) : Nat :=
  if sum = 0 then 0
  else if sum ≤ 1 then 1
  else if sum ≤ 3 then 2
  else if sum ≤ 7 then 3
  else if sum ≤ 15 then 4
  else if sum ≤ 31 then 5
  else if sum ≤ 63 then 6
  else 7

/-- Modelled from the spec: `MonoChaos::get()` — the bin from the
previous column's and previous row's scores, clamped to the bin count. -/
def chaosGet (bc : Nat) (c : ChaosSt) : Nat :=
  min (bc - 1) (chaosBucket (c.prev + c.cols c.pos))

/-- Modelled from the spec: `MonoChaos::store(r, num_syms)` updates the
current column's score and `prev`, and advances the column cursor. -/
def chaosStore (ns r : Nat) (c : ChaosSt) : ChaosSt :=
  ⟨fun j => if j = c.pos then residScore ns r else c.cols j,
   c.pos + 1, residScore ns r⟩

/-- Modelled from the spec: `MonoChaos::zero()` stores a zero score and
advances the column cursor. -/
def chaosZero (c : ChaosSt) : ChaosSt :=
  ⟨fun j => if j = c.pos then 0 else c.cols j, c.pos + 1, 0⟩

/-- The encoder state that `process` populates and that `simulate`,
`writeTables`, `writeRowHeader` and `write` read: the fields of class
`MonoWriter` (tile map, residual matrix, chosen filters, chaos
configuration, row-filter selections), plus the `Parameters` it keeps.
The recursive `_filter_encoder` is abstracted by the flag `recurse` and
the totals its own `simulate`/`writeTables`/`writeRowHeader`/`write`
would return (`innerSimBits`, `innerTableBits`, `innerRowHdr`,
`innerWrite`). -/
structure MWState where
  numSyms : Nat
  minBits : Nat
  maxBits : Nat
  tileBitsX : Nat
  tileBitsY : Nat
  sizeX : Nat
  sizeY : Nat
  tilesX : Nat
  tilesY : Nat
  filterCount : Nat
  normalFilterCount : Nat
  sympalFilterCount : Nat
  sympalValues : List Nat
  filterIndices : Nat → Nat
  tiles : Nat → Nat → Nat
  residuals : Nat → Nat → Nat
  mask : Nat → Nat → Bool
  tileRowFilters : Nat → Nat
  binCount : Nat
  recurse : Bool
  innerSimBits : Nat
  innerTableBits : Nat
  innerRowHdr : Nat → Nat
  innerWrite : Nat → Nat → Nat

/-- Modelled from the spec: the deterministic entropy-coder primitive
(§6) — per-symbol bit cost of each chaos-bin encoder, each bin's table
size, and the row-filter encoder's per-symbol cost and table size. The
contract makes `simulate(sym)` and `write(sym)` return the same bit
count for the same symbol. The `EntropyEncoder` itself is not under
src/. -/
structure CoderModel where
  symCost : Nat → Nat → Nat
  tableBits : Nat → Nat
  rfSymCost : Nat → Nat
  rfTableBits : Nat

/-- `getTile(x, y)`: the tile-map entry of the tile containing cell
`(x,y)` (`_tiles[(x >> _tile_bits_x) + (y >> _tile_bits_y) * _tiles_x]`). -/
def tileOf (s : MWState) (x y : Nat) : Nat :=
  s.tiles (x >>> s.tileBitsX) (y >>> s.tileBitsY)

/-- One cell of `simulate`'s residual loop (MonoWriter.cpp:946-971): a
masked, MASK_TILE or sympal cell only advances the chaos state with
`zero()`; otherwise the residual is costed through the chaos-bin coder. -/
def simStep (s : MWState) (cm : CoderModel) (y : Nat)
    (acc : ChaosSt × Nat) (x : Nat) : ChaosSt × Nat :=
  let f := tileOf s x y
  if f = MASK_TILE ∨ s.mask x y = true ∨ s.normalFilterCount ≤ f then
    (chaosZero acc.1, acc.2)
  else
    let r := s.residuals x y
    let bin := chaosGet s.binCount acc.1
    (chaosStore s.numSyms r acc.1, acc.2 + cm.symCost bin r)

/-- One row of `simulate`'s residual loop: `startRow` then every column. -/
def simRow (s : MWState) (cm : CoderModel) (acc : ChaosSt × Nat)
    (y : Nat) : ChaosSt × Nat :=
  (List.range s.sizeX).foldl (simStep s cm y) (chaosStartRow acc.1, acc.2)

/-- The total of `simulate`'s residual loop (MonoWriter.cpp:941-971). -/
def residBitsSim (s : MWState) (cm : CoderModel) : Nat :=
  ((List.range s.sizeY).foldl (simRow s cm) (chaosStart, 0)).2

/-- One tile of `simulate`'s row-filter loop (MonoWriter.cpp:914-938):
the accumulator is `(prev, bits)`; `prev` is updated only in the RF_PREV
branch, exactly as in the source. -/
def rfStep (s : MWState) (cm : CoderModel) (ty : Nat)
    (acc : Nat × Nat) (tx : Nat) : Nat × Nat :=
  let f := s.tiles tx ty
  if f = MASK_TILE then acc
  else if s.tileRowFilters ty = RF_PREV then
    (f, acc.2 + cm.rfSymCost (rfCode s.filterCount acc.1 f))
  else
    (acc.1, acc.2 + cm.rfSymCost f)

/-- One tile row of `simulate`'s row-filter loop: `prev` starts at 0. -/
def rfRow (s : MWState) (cm : CoderModel) (acc : Nat) (ty : Nat) : Nat :=
  acc + ((List.range s.tilesX).foldl (rfStep s cm ty) (0, 0)).2

/-- The total of `simulate`'s row-filter loop over all tile rows. -/
def rfBitsSim (s : MWState) (cm : CoderModel) : Nat :=
  (List.range s.tilesY).foldl (rfRow s cm) 0

/-- `MonoWriter::simulate()` (MonoWriter.cpp:891-974): chaos overhead
`4 + binCount·5·num_syms`, the tile-bits field, `5 + 7·normal_filter_count`
for the filter choice, `4 + 8·sympal_filter_count` for the sympals, one
recurse bit, then either the inner coder's simulate or the row-filter
symbol costs, then the residual loop. -/
def simulate (s : MWState) (cm : CoderModel) : Nat :=
  (4 + s.binCount * 5 * s.numSyms)
  + tileBitsFieldBC s.minBits s.maxBits
  + (5 + 7 * s.normalFilterCount)
  + (4 + 8 * s.sympalFilterCount)
  + 1
  + (if s.recurse then s.innerSimBits else rfBitsSim s cm)
  + residBitsSim s cm

/-- The sum of the chaos-bin encoders' table sizes as `writeTables`
emits them (MonoWriter.cpp:1113-1118). -/
def sumTableBits (s : MWState) (cm : CoderModel) : Nat :=
  (List.range s.binCount).foldl (fun a b => a + cm.tableBits b) 0

/-- The total bit count of `MonoWriter::writeTables`
(MonoWriter.cpp:1057-1143): the tile-bits field when its width is
positive, the unconditional 4-bit sympal count, 8 bits per sympal value,
the 5-bit normal count, 7 bits per non-fixed chosen filter, the 4-bit
chaos count, the chaos encoders' tables, the recurse bit, and either the
inner coder's tables or the row-filter encoder's table. -/
def writeTables (s : MWState) (cm : CoderModel) : Nat :=
  (if 0 < tileBitsFieldBC s.minBits s.maxBits
   then tileBitsFieldBC s.minBits s.maxBits else 0)
  + (4 + 8 * s.sympalFilterCount)
  + (5 + 7 * (s.normalFilterCount - SF_FIXED))
  + 4
  + sumTableBits s cm
  + 1
  + (if s.recurse then s.innerTableBits else cm.rfTableBits)

/-- The recurse bit `writeTables` emits (MonoWriter.cpp:1124-1131), as a
(value, width) field: 1 when the recursive filter encoder was retained,
else 0. -/
def writeTablesRecurseField (s : MWState) : Nat × Nat :=
  (if s.recurse then 1 else 0, 1)

/-- The mutable state of the write pass: the chaos state, the per-column
`_tile_seen` flags, `_prev_filter`, `_write_filter`, and the running
filter-overhead and data bit totals. -/
structure WState where
  chaos : ChaosSt
  seen : Nat → Bool
  prevFilter : Nat
  writeFilter : Nat
  ovh : Nat
  dat : Nat

/-- `MonoWriter::initializeWriter` (MonoWriter.cpp:1145-1157) resets the
chaos model and the encoders. `_tile_seen` is only resized there and
`_prev_filter`/`_write_filter` keep their previous contents; they are
modelled as cleared because the first `writeRowHeader`/first-seen tile
overwrite them before any read on row 0. -/
def initialWState : WState :=
  { chaos := chaosStart, seen := (fun _ => false), prevFilter := 0,
    writeFilter := 0, ovh := 0, dat := 0 }

/-- `MonoWriter::writeRowHeader(y)` (MonoWriter.cpp:1159-1196): always
`startRow`; at a tile-row boundary (`y & (tile_size_y − 1) == 0`,
i.e. `y % 2^tile_bits_y = 0`) clear `_tile_seen` and either recurse the
row header or emit the 1-bit row-filter selector and clear
`_prev_filter`. Returns the new state and the bits written. -/
def writeRowHeader (s : MWState) (w : WState) (y : Nat) : WState × Nat :=
  let w1 := { w with chaos := chaosStartRow w.chaos }
  if y % (1 <<< s.tileBitsY) = 0 then
    let w2 := { w1 with seen := fun _ => false }
    let ty := y >>> s.tileBitsY
    if s.recurse then (w2, s.innerRowHdr ty)
    else ({ w2 with prevFilter := 0 }, 1)
  else (w1, 0)

/-- `MonoWriter::write(x, y)` (MonoWriter.cpp:1198-1269), translated
branch for branch: a masked pixel gets `chaos.zero()` but execution
falls through; an unseen tile column emits the tile's filter (recursive
or row-filter coded) and latches `_write_filter`; then, whenever the
latched `_write_filter` is a normal filter, the cell's residual is
emitted through the chaos-bin coder — even for a masked pixel. -/
def write (s : MWState) (cm : CoderModel) (y : Nat)
    (w : WState) (x : Nat) : WState :=
  let w1 := if s.mask x y then { w with chaos := chaosZero w.chaos } else w
  let tx := x >>> s.tileBitsX
  let w2 :=
    if w1.seen tx then w1
    else
      let ty := y >>> s.tileBitsY
      let f := s.tiles tx ty
      let w' := { w1 with seen := (fun j => if j = tx then true else w1.seen j),
                          writeFilter := f }
      if f = MASK_TILE then w'
      else if s.recurse then { w' with ovh := w'.ovh + s.innerWrite tx ty }
      else if s.tileRowFilters ty = RF_PREV then
        { w' with ovh := w'.ovh + cm.rfSymCost (rfCode s.filterCount w'.prevFilter f),
                  prevFilter := f }
      else { w' with ovh := w'.ovh + cm.rfSymCost f }
  if s.normalFilterCount ≤ w2.writeFilter then
    { w2 with chaos := chaosZero w2.chaos }
  else
    let r := s.residuals x y
    let bin := chaosGet s.binCount w2.chaos
    { w2 with chaos := chaosStore s.numSyms r w2.chaos,
              dat := w2.dat + cm.symCost bin r }

/-- One output row of the write pass: the row header followed by every
cell of the row in raster order; the second component accumulates the
row-header bits. -/
def writeRow (s : MWState) (cm : CoderModel) (acc : WState × Nat)
    (y : Nat) : WState × Nat :=
  let h := writeRowHeader s acc.1 y
  ((List.range s.sizeX).foldl (write s cm y) h.1, acc.2 + h.2)

/-- The full write pass: `writeRowHeader(y)` then `write(x,y)` for every
cell in raster order, starting from the state `initializeWriter` leaves. -/
def writePass (s : MWState) (cm : CoderModel) : WState × Nat :=
  (List.range s.sizeY).foldl (writeRow s cm) (initialWState, 0)

/-- The total number of bits actually emitted:
`writeTables + Σ writeRowHeader + Σ write` (overhead plus data). -/
def emittedTotal (s : MWState) (cm : CoderModel) : Nat :=
  writeTables s cm + (writePass s cm).2
  + (writePass s cm).1.ovh + (writePass s cm).1.dat

/-- The 4-bit value `writeTables` emits for the sympal count
(MonoWriter.cpp:1080): `writeBits(_sympal_filter_count - 1, 4)` — the
`int` difference converted to the writer's `u32` and truncated to the
low 4 bits, so a count of 0 emits 15. -/
def sympalFieldValue (c : Nat) : Nat :=
  (c + 4294967296 - 1) % 4294967296 % 16

/-- The chaos-count field of the header (MonoWriter.cpp:1107):
`writeBits(_chaos.getBinCount() - 1, 4)`. -/
def chaosHeaderField (binCount : Nat) : Nat := (binCount - 1) % 16

/-- The sympal portion of the header as `writeTables` emits it
(MonoWriter.cpp:1076-1085): the 4-bit count field is written
unconditionally, then one 8-bit constant per sympal filter. Fields are
(value, width) pairs. -/
def sourceSympalFields (c : Nat) (vals : List Nat) : List (Nat × Nat) :=
  (sympalFieldValue c, 4) :: vals.map (fun v => (v % 256, 8))

/-- Modelled from the spec: the sympal portion of the header as the
spec's words describe it — "4 bits: `sympal_filter_count − 1` (sent only
if `sympal_filter_count > 0`)", the constant bytes absent when the count
is 0. For the refinement comparison with `sourceSympalFields`. -/
def specSympalFields (c : Nat) (vals : List Nat) : List (Nat × Nat) :=
  if 0 < c then (c - 1, 4) :: vals.map (fun v => (v % 256, 8)) else []

/-- The fixed-width fields of `writeTables`' header in emission order
(MonoWriter.cpp:1064-1109), up to and including the chaos-count field;
the variable-length encoder tables and the recurse tail follow these
fields and are accounted separately in `writeTables`. -/
def headerFields (s : MWState) : List (Nat × Nat) :=
  (if 0 < tileBitsFieldBC s.minBits s.maxBits
   then [((s.tileBitsX - s.minBits) % 2 ^ tileBitsFieldBC s.minBits s.maxBits,
          tileBitsFieldBC s.minBits s.maxBits)]
   else [])
  ++ sourceSympalFields s.sympalFilterCount s.sympalValues
  ++ ((s.normalFilterCount - SF_FIXED) % 32, 5)
     :: (List.range' SF_FIXED (s.normalFilterCount - SF_FIXED)).map
          (fun f => (s.filterIndices f % 128, 7))
  ++ [(chaosHeaderField s.binCount, 4)]

/-- The same fields with the sympal portion as the spec describes it. -/
def headerFieldsSpec (s : MWState) : List (Nat × Nat) :=
  (if 0 < tileBitsFieldBC s.minBits s.maxBits
   then [((s.tileBitsX - s.minBits) % 2 ^ tileBitsFieldBC s.minBits s.maxBits,
          tileBitsFieldBC s.minBits s.maxBits)]
   else [])
  ++ specSympalFields s.sympalFilterCount s.sympalValues
  ++ ((s.normalFilterCount - SF_FIXED) % 32, 5)
     :: (List.range' SF_FIXED (s.normalFilterCount - SF_FIXED)).map
          (fun f => (s.filterIndices f % 128, 7))
  ++ [(chaosHeaderField s.binCount, 4)]

/-- Total width of the fixed header fields. -/
def headerBitLen (s : MWState) : Nat :=
  ((headerFields s).map Prod.snd).sum

/-- `MonoWriter::designRowFilters`' inner row loop
(MonoWriter.cpp:662-682), which builds the RF_NOOP and RF_PREV candidate
codes of one tile row. The accumulator mirrors the source's local
`u8 prev = 0`, which the loop never updates. Returns, for each
non-MASK_TILE tile in order, the pair (RF_NOOP code, RF_PREV code). -/
def designRowCodesAux (fc : Nat) : List Nat → Nat → List (Nat × Nat)
  | [], _ => []
  | f :: rest, prev =>
    if f = MASK_TILE then designRowCodesAux fc rest prev
    else (f, rfCode fc prev f) :: designRowCodesAux fc rest prev

/-- The candidate codes of one tile row in `designRowFilters`. -/
def designRowCodes (fc : Nat) (row : List Nat) : List (Nat × Nat) :=
  designRowCodesAux fc row 0

/-- Modelled from the spec: the row codes the claim describes — the
RF_PREV code is `(f + F − prev_f) mod F` where `prev_f` is the filter id
of the most recent preceding non-MASK_TILE tile of the row (0 at the row
start), MASK_TILE entries being skipped for the `prev` update. For the
comparison with `designRowCodes`. -/
def specRowCodesAux (fc : Nat) : List Nat → Nat → List (Nat × Nat)
  | [], _ => []
  | f :: rest, prev =>
    if f = MASK_TILE then specRowCodesAux fc rest prev
    else (f, (f + fc - prev) % fc) :: specRowCodesAux fc rest f

/-- The candidate codes of one tile row as the claim describes them. -/
def specRowCodes (fc : Nat) (row : List Nat) : List (Nat × Nat) :=
  specRowCodesAux fc row 0

/-- The per-row entropy accumulation of `designRowFilters`
(MonoWriter.cpp:691-706): the chosen selector is the one with the
smaller entropy (ties to RF_NOOP) and the row contributes
`1 + min(e0, e1)` to `_row_filter_entropy`. -/
def designRowAccum (e0 e1 : Nat) : Nat × Nat :=
  if e0 > e1 then (1, 1 + e1) else (0, 1 + e0)

/-- `MonoWriter::recurseCompress`'s retention decision
(MonoWriter.cpp:719-749): no recursive encoder is created below
`RECURSE_THRESH_COUNT` tiles; the created encoder is deleted again
exactly when `recurse_entropy > _row_filter_entropy`. -/
def recurseRetained (tilesCount re rfe : Nat) : Bool :=
  if tilesCount < RECURSE_THRESH_COUNT then false
  else if rfe < re then false else true

/-- The residual computation shared by `designFilters`, `designTiles`
and `computeResiduals` (MonoWriter.cpp:615-619):
`residual = value + num_syms - prediction; if (residual >= num_syms)
residual -= num_syms`. The source computes in `int`; for
`prediction ≤ num_syms` the `Nat` translation is exact. -/
def monoResidual (ns v p : Nat) : Nat :=
  let r := v + ns - p
  if ns ≤ r then r - ns else r

/-- `MonoWriter::computeResiduals` (MonoWriter.cpp:582-637), expressed
pointwise: the tile loops write each unmasked cell of each
normally-filtered tile exactly once, so the produced residual matrix is
`none` where the source skips the cell (tile masked or sympal, or cell
masked) and `monoResidual` of the cell's value and its tile filter's
prediction elsewhere. The filter bank (`MONO_FILTERS`, not under src/)
enters as the `predict` argument. -/
def computeResidualAt (ns nfc tileBits : Nat) (tiles : Nat → Nat → Nat)
    (mask : Nat → Nat → Bool) (data : Nat → Nat → Nat)
    (predict : Nat → Nat → Nat → Nat) (x y : Nat) : Option Nat :=
  let f := tiles (x >>> tileBits) (y >>> tileBits)
  if nfc ≤ f then none
  else if mask x y then none
  else some (monoResidual ns (data x y) (predict f x y))

/-- The tile-size search loop of `MonoWriter::process`
(MonoWriter.cpp:992-1046): the loop body rebuilds the live encoder state
for the current `bits` and simulates it; on improvement
(`best_entropy > entropy`) the best cost and best bits are recorded and
the loop continues, otherwise it breaks. The result is
`(best_entropy, best_bits, live_bits)` where `live_bits` is the tile
size the encoder state is left at — the last `bits` tried, because the
source never stores the best option back
(`// TODO: Store off the best option`). The fuel argument counts the
remaining loop iterations `bits ≤ max_bits`. -/
def searchLoop (cost : Nat → Nat) : Nat → Nat → Nat → Nat → Nat →
    Nat × Nat × Nat
  | 0, _, bestE, bestB, liveB => (bestE, bestB, liveB)
  | fuel + 1, bits, bestE, bestB, _ =>
    let e := cost bits
    if e < bestE then searchLoop cost fuel (bits + 1) e bits bits
    else (bestE, bestB, bits)

/-- `process`'s search with the source's initial values: sentinel best
entropy `0x7fffffff` and `best_bits = max_bits`. -/
def processSearch (cost : Nat → Nat) (minBits maxBits : Nat) :
    Nat × Nat × Nat :=
  searchLoop cost (maxBits + 1 - minBits) minBits 2147483647 maxBits maxBits

/-- `MonoWriter::init` (MonoWriter.cpp:1051-1055): runs `process` and
returns `true` unconditionally. -/
def monoInit (cost : Nat → Nat) (minBits maxBits : Nat) : Bool :=
  let _ := processSearch cost minBits maxBits
  true

/-- The tile-grid dimension `process` computes (MonoWriter.cpp:1004):
`(_params.size_x + _tile_size_x - 1) >> bits` with
`_tile_size_x = 1 << bits`. -/
def tilesDim (sz b : Nat) : Nat := (sz + (1 <<< b) - 1) >>> b

/-- One level of the recursion of `recurseCompress`: an invocation on a
`d.1 × d.2` data matrix hands its inner MonoWriter the `tiles_x ×
tiles_y` tile map as the data matrix (MonoWriter.cpp:727-731). -/
def gridStep (b : Nat) (d : Nat × Nat) : Nat × Nat :=
  (tilesDim d.1 b, tilesDim d.2 b)

/-- `_tiles_count` of an invocation on a `d.1 × d.2` matrix at tile-bits
`b` (MonoWriter.cpp:1010). -/
def gridCount (b : Nat) (d : Nat × Nat) : Nat :=
  (gridStep b d).1 * (gridStep b d).2

/-- The chain of recursive invocations through the `bits = min_bits`
branch of the search terminates: some level's tile count falls below
`RECURSE_THRESH_COUNT`-style threshold `thresh`, so `recurseCompress`
stops spawning inner MonoWriters. -/
def recursionTerminates (b thresh : Nat) (d : Nat × Nat) : Prop :=
  ∃ k, gridCount b ((gridStep b)^[k] d) < thresh

/-- The chaos-level sweep of `MonoWriter::designChaos`
(MonoWriter.cpp:756-816): candidates `1 ≤ chaos_levels < MAX_CHAOS_LEVELS`,
initial best `(0x7fffffff, 1)`, strict improvement
(`best_entropy > entropy`) to update. `cost` is the measured entropy of
a candidate including the `chaos_levels · 5 · num_syms` table penalty;
the result is `(best_entropy, best_chaos_levels)`. -/
def designChaosBest (maxLevels : Nat) (cost : Nat → Nat) : Nat × Nat :=
  (List.range' 1 (maxLevels - 1)).foldl
    (fun acc lv => if cost lv < acc.1 then (cost lv, lv) else acc)
    (2147483647, 1)

/-- A concrete encoder state for the bit-length law: a 1×1 matrix,
1×1 tiles (`min_bits = max_bits = 0`), no mask, a single normal-filter
tile, one chaos bin, the four fixed filters and no sympals. -/
def exState : MWState :=
  { numSyms := 2, minBits := 0, maxBits := 0, tileBitsX := 0, tileBitsY := 0,
    sizeX := 1, sizeY := 1, tilesX := 1, tilesY := 1,
    filterCount := 4, normalFilterCount := 4, sympalFilterCount := 0,
    sympalValues := [], filterIndices := (fun _ => 0),
    tiles := (fun _ _ => 0), residuals := (fun _ _ => 0),
    mask := (fun _ _ => false), tileRowFilters := (fun _ => 0),
    binCount := 1, recurse := false, innerSimBits := 0, innerTableBits := 0,
    innerRowHdr := (fun _ => 0), innerWrite := (fun _ _ => 0) }

/-- A concrete coder model: one bit per symbol, a 10-bit table per chaos
bin (which equals `simulate`'s `5·num_syms` estimate here, isolating the
header discrepancies), an empty row-filter table. -/
def exCoder : CoderModel :=
  { symCost := (fun _ _ => 1), tableBits := (fun _ => 10),
    rfSymCost := (fun _ => 1), rfTableBits := 0 }

/-- A concrete state for the masked-cell write path: a 2×1 matrix with
2×2 tiles, so the single tile holds the unmasked cell (0,0) and the
masked cell (1,0) and carries the normal filter 0. -/
def exStateMasked : MWState :=
  { numSyms := 2, minBits := 1, maxBits := 1, tileBitsX := 1, tileBitsY := 1,
    sizeX := 2, sizeY := 1, tilesX := 1, tilesY := 1,
    filterCount := 4, normalFilterCount := 4, sympalFilterCount := 0,
    sympalValues := [], filterIndices := (fun _ => 0),
    tiles := (fun _ _ => 0), residuals := (fun _ _ => 0),
    mask := (fun x _ => x == 1), tileRowFilters := (fun _ => 0),
    binCount := 1, recurse := false, innerSimBits := 0, innerTableBits := 0,
    innerRowHdr := (fun _ => 0), innerWrite := (fun _ _ => 0) }

/-- The coder model for the masked-cell scenario. -/
def exCoderMasked : CoderModel :=
  { symCost := (fun _ _ => 1), tableBits := (fun _ => 10),
    rfSymCost := (fun _ => 1), rfTableBits := 0 }

/-- Auxiliary: the fold of `designChaosBest` never leaves the candidate
set: the selected level is 1 or one of the swept levels. -/
theorem chaosSweepBound (m : Nat) (cost : Nat → Nat) :
    ∀ (l : List Nat) (acc : Nat × Nat),
      (∀ lv ∈ l, 1 ≤ lv ∧ lv ≤ m) → 1 ≤ acc.2 → acc.2 ≤ m →
      1 ≤ (l.foldl (fun a lv => if cost lv < a.1 then (cost lv, lv) else a) acc).2
      ∧ (l.foldl (fun a lv => if cost lv < a.1 then (cost lv, lv) else a) acc).2 ≤ m := by
  intro l
  induction l with
  | nil => intro acc _ h1 h2; exact ⟨h1, h2⟩
  | cons hd tl ih =>
    intro acc hmem h1 h2
    simp only [List.foldl_cons]
    by_cases hc : cost hd < acc.1
    · rw [if_pos hc]
      exact ih (cost hd, hd)
        (fun lv hlv => hmem lv (List.mem_cons_of_mem _ hlv))
        (hmem hd (List.mem_cons_self _ _)).1
        (hmem hd (List.mem_cons_self _ _)).2
    · rw [if_neg hc]
      exact ih acc (fun lv hlv => hmem lv (List.mem_cons_of_mem _ hlv)) h1 h2

/-- Auxiliary: `monoResidual` is the claimed modular residual and is in
range, given in-range value and prediction. -/
theorem monoResidual_mod (ns v p : Nat) (hv : v < ns) (hp : p < ns) :
    monoResidual ns v p = (v + ns - p) % ns ∧ monoResidual ns v p < ns := by
  unfold monoResidual
  by_cases hc : ns ≤ v + ns - p
  · rw [if_pos hc]
    have h2 : v + ns - p - ns < ns := by omega
    have h3 : (v + ns - p) % ns = v + ns - p - ns := by
      rw [Nat.mod_eq_sub_mod hc, Nat.mod_eq_of_lt h2]
    exact ⟨h3.symm, by omega⟩
  · rw [if_neg hc]
    have h2 : v + ns - p < ns := by omega
    exact ⟨(Nat.mod_eq_of_lt h2).symm, h2⟩

/-- Auxiliary: `tilesDim s 0` is the identity — with `min_bits = 0` the
tile grid has exactly the input dimensions. -/
theorem tilesDim_zero (s : Nat) : tilesDim s 0 = s := by
  simp [tilesDim]

/-- Auxiliary: `gridStep 0` is the identity. -/
theorem gridStep_zero (d : Nat × Nat) : gridStep 0 d = d := by
  cases d with
  | mk a c => simp [gridStep, tilesDim_zero]

/-- Auxiliary: `tilesDim` as a ceiling division. -/
theorem tilesDim_eq_div (s b : Nat) : tilesDim s b = (s + 2 ^ b - 1) / 2 ^ b := by
  unfold tilesDim
  rw [Nat.shiftLeft_eq, one_mul, Nat.shiftRight_eq_div_pow]

/-- Auxiliary: the tile grid never exceeds the data dimensions. -/
theorem tilesDim_le (s b : Nat) : tilesDim s b ≤ s := by
  rw [tilesDim_eq_div]
  have hm : 0 < 2 ^ b := pow_pos (by norm_num) b
  have hs : s * 1 ≤ s * 2 ^ b := Nat.mul_le_mul (le_refl s) hm
  rw [mul_one] at hs
  have h1 : s + 2 ^ b - 1 < (s + 1) * 2 ^ b := by
    rw [add_one_mul]
    omega
  have h2 := (Nat.div_lt_iff_lt_mul hm).mpr h1
  omega

/-- Auxiliary: a tile grid that still has at least 2 tiles along an axis
is strictly smaller than the data along that axis once tiles have size
at least 2. -/
theorem tilesDim_lt (s b : Nat) (hb : 1 ≤ b) (h2 : 2 ≤ tilesDim s b) :
    tilesDim s b < s := by
  have hm : 0 < 2 ^ b := pow_pos (by norm_num) b
  have hm2 : 2 ≤ 2 ^ b := by
    calc 2 = 2 ^ 1 := by norm_num
    _ ≤ 2 ^ b := Nat.pow_le_pow_right (by norm_num) hb
  rw [tilesDim_eq_div] at h2 ⊢
  have h3 : 2 * 2 ^ b ≤ s + 2 ^ b - 1 := (Nat.le_div_iff_mul_le hm).mp h2
  have hs1 : 2 ^ b + 1 ≤ s := by omega
  apply (Nat.div_lt_iff_lt_mul hm).mpr
  have h4 : s * 2 ≤ s * 2 ^ b := Nat.mul_le_mul (le_refl s) hm2
  omega

end MonoWriter

namespace MonoWriter

/-- C2: for a masked cell inside a normal-filter tile, `write` calls
`chaos.zero()` but then falls through (MonoWriter.cpp:1204-1206 has no
early return) and emits the cell's residual through the chaos-bin
encoder: on the 2×1 matrix with one tile of normal filter 0 and cell
(1,0) masked, the write pass emits residual bits for both cells
(`dat = 2`) although `simulate`'s residual loop — which skips masked
cells — costs exactly one cell. The claim (and `simulate`/
`initializeEncoders`) say a masked cell emits nothing. -/
theorem write_emits_residual_for_masked_cell :
    exStateMasked.mask 1 0 = true
    ∧ (writePass exStateMasked exCoderMasked).1.dat = 2
    ∧ residBitsSim exStateMasked exCoderMasked = 1 := by decide

/-- C3: the tile-size search of `process` does not restore the winning
configuration: with `min_bits = 0`, `max_bits = 1` and simulated costs
10 (bits 0) and 20 (bits 1), the search returns best entropy 10 at
`best_bits = 0`, but the live encoder state is left at the last-tried
`bits = 1` (the source's `// TODO: Store off the best option` is never
done), so `writeTables` would serialize the losing configuration. -/
theorem process_leaves_last_tried_state :
    processSearch (fun b => 10 + 10 * b) 0 1 = (10, 0, 1)
    ∧ (processSearch (fun b => 10 + 10 * b) 0 1).2.1
      ≠ (processSearch (fun b => 10 + 10 * b) 0 1).2.2 := by decide

/-- C5: `designRowFilters` never updates `prev` (the `prev = f`
assignment present in `simulate`, `initializeEncoders` and `write` is
missing at MonoWriter.cpp:665-679), so on the tile row `[1, 1]` with
`F = 2` the RF_PREV candidate codes are `[1, 1]`, not the
`[1, 0]` the claim's formula (prev = most recent preceding non-MASK
tile's filter) produces. -/
theorem designRowFilters_prev_never_updated :
    designRowCodes 2 [1, 1] = [(1, 1), (1, 1)]
    ∧ specRowCodes 2 [1, 1] = [(1, 1), (1, 0)]
    ∧ designRowCodes 2 [1, 1] ≠ specRowCodes 2 [1, 1] := by decide

/-- C6: when the recursive compressor is attempted
(`tiles_count ≥ RECURSE_THRESH_COUNT`), `recurseCompress` retains the
inner coder exactly when `recurse_entropy ≤ row_filter_entropy`
(MonoWriter.cpp:740), and the recurse bit `writeTables` emits
(MonoWriter.cpp:1124-1131) is 1 exactly when the inner coder was
retained. -/
theorem recurse_decision (tc re rfe : Nat) (s : MWState)
    (h : RECURSE_THRESH_COUNT ≤ tc)
    (hs : s.recurse = recurseRetained tc re rfe) :
    (s.recurse = true ↔ re ≤ rfe)
    ∧ ((writeTablesRecurseField s).1 = 1 ↔ re ≤ rfe) := by
  have hlt : ¬ tc < RECURSE_THRESH_COUNT := not_lt.mpr h
  have h1 : (s.recurse = true) ↔ re ≤ rfe := by
    rw [hs]
    unfold recurseRetained
    rw [if_neg hlt]
    by_cases hc : rfe < re
    · rw [if_pos hc]; simp; omega
    · rw [if_neg hc]; simp; omega
  refine ⟨h1, ?_⟩
  have h2 : ((writeTablesRecurseField s).1 = 1) ↔ s.recurse = true := by
    unfold writeTablesRecurseField
    cases s.recurse <;> simp
  rw [h2]
  exact h1

/-- Witness for C6 at `tiles_count = 300`, `recurse_entropy = 5`,
`row_filter_entropy = 7`. -/
theorem recurse_decision_witness :
    ({ exState with recurse := recurseRetained 300 5 7 }.recurse = true ↔ 5 ≤ 7)
    ∧ ((writeTablesRecurseField
          { exState with recurse := recurseRetained 300 5 7 }).1 = 1 ↔ 5 ≤ 7) :=
  recurse_decision 300 5 7 _ (by decide) rfl

/-- C7: for every unmasked cell of a tile with a normal filter, the
residual `computeResiduals` stores equals
`(M(x,y) + num_syms − predict_f(x,y)) mod num_syms` and lies in
`[0, num_syms)`, given in-range values and predictions. -/
theorem computeResiduals_range (ns nfc tb x y : Nat)
    (tiles : Nat → Nat → Nat) (mask : Nat → Nat → Bool)
    (data : Nat → Nat → Nat) (predict : Nat → Nat → Nat → Nat)
    (hm : mask x y = false)
    (hf : tiles (x >>> tb) (y >>> tb) < nfc)
    (hv : data x y < ns)
    (hp : predict (tiles (x >>> tb) (y >>> tb)) x y < ns) :
    computeResidualAt ns nfc tb tiles mask data predict x y
      = some ((data x y + ns - predict (tiles (x >>> tb) (y >>> tb)) x y) % ns)
    ∧ (data x y + ns - predict (tiles (x >>> tb) (y >>> tb)) x y) % ns < ns := by
  have h1 := monoResidual_mod ns (data x y)
    (predict (tiles (x >>> tb) (y >>> tb)) x y) hv hp
  unfold computeResidualAt
  rw [if_neg (not_le.mpr hf), if_neg (by simp [hm])]
  exact ⟨by rw [h1.1], by omega⟩

/-- Witness for C7 on an 8-symbol alphabet: value 3, prediction 5,
residual `(3 + 8 − 5) % 8 = 6 < 8`. -/
theorem computeResiduals_range_witness :
    computeResidualAt 8 4 0 (fun _ _ => 0) (fun _ _ => false)
      (fun _ _ => 3) (fun _ _ _ => 5) 0 0 = some 6 ∧ (6 : Nat) < 8 :=
  computeResiduals_range 8 4 0 0 0 (fun _ _ => 0) (fun _ _ => false)
    (fun _ _ => 3) (fun _ _ _ => 5) rfl (by decide) (by decide) (by decide)

/-- C9 counterexample: `process` performs no parameter validation — on
the invalid parameter set `min_bits = 1 > max_bits = 0` the search loop
body never runs, `process` returns the untouched sentinel
`0x7fffffff = 2147483647` as a normal entropy value, and `init` still
returns `true`; no configuration-error kind exists in the code. -/
theorem process_accepts_invalid_params :
    processSearch (fun _ => 0) 1 0 = (2147483647, 0, 0)
    ∧ monoInit (fun _ => 0) 1 0 = true := by decide

/-- C9 amended: for every parameter set with `max_bits < min_bits`,
`process` returns the sentinel `0x7fffffff` without reporting any
error, and `init` returns `true` unconditionally. -/
theorem process_no_failure_path (cost : Nat → Nat) (minB maxB : Nat)
    (h : maxB < minB) :
    (processSearch cost minB maxB).1 = 2147483647
    ∧ monoInit cost minB maxB = true := by
  have hfuel : maxB + 1 - minB = 0 := by omega
  constructor
  · unfold processSearch
    rw [hfuel]
    rfl
  · rfl

/-- Witness for C9's amended claim at `min_bits = 1`, `max_bits = 0`. -/
theorem process_no_failure_path_witness :
    (0 : Nat) < 1
    ∧ ((processSearch (fun _ => 5) 1 0).1 = 2147483647
       ∧ monoInit (fun _ => 5) 1 0 = true) :=
  ⟨by decide, process_no_failure_path (fun _ => 5) 1 0 (by decide)⟩

/-- C10: the chaos-level sweep of `designChaos` only evaluates
candidates `1 ≤ levels < MAX_CHAOS_LEVELS` and starts from best level 1,
so the selected bin count is in `[1, MAX_CHAOS_LEVELS − 1]` and the
4-bit chaos header field `binCount − 1` never carries
`MAX_CHAOS_LEVELS − 1`. Stated for any `MAX_CHAOS_LEVELS ∈ [2, 16]`
(the constant itself is declared outside src/; the spec bounds it by
16). -/
theorem designChaos_bins_in_range (n : Nat) (cost : Nat → Nat)
    (h2 : 2 ≤ n) (h16 : n ≤ 16) :
    1 ≤ (designChaosBest n cost).2
    ∧ (designChaosBest n cost).2 ≤ n - 1
    ∧ chaosHeaderField (designChaosBest n cost).2 ≠ n - 1 := by
  have hmem : ∀ lv ∈ List.range' 1 (n - 1), 1 ≤ lv ∧ lv ≤ n - 1 := by
    intro lv hlv
    rw [List.mem_range'_1] at hlv
    omega
  have hb := chaosSweepBound (n - 1) cost (List.range' 1 (n - 1))
    (2147483647, 1) hmem (le_refl 1) (by omega)
  have h1 : 1 ≤ (designChaosBest n cost).2 := hb.1
  have hle : (designChaosBest n cost).2 ≤ n - 1 := hb.2
  refine ⟨h1, hle, ?_⟩
  have hfield : chaosHeaderField (designChaosBest n cost).2
      = (designChaosBest n cost).2 - 1 := by
    unfold chaosHeaderField
    exact Nat.mod_eq_of_lt (by omega)
  omega

/-- Witness for C10 at `MAX_CHAOS_LEVELS = 8` and a flat cost. -/
theorem designChaos_bins_in_range_witness :
    (2 : Nat) ≤ 8
    ∧ (1 ≤ (designChaosBest 8 (fun _ => 7)).2
       ∧ (designChaosBest 8 (fun _ => 7)).2 ≤ 8 - 1
       ∧ chaosHeaderField (designChaosBest 8 (fun _ => 7)).2 ≠ 8 - 1) :=
  ⟨by decide, designChaos_bins_in_range 8 (fun _ => 7) (by decide) (by decide)⟩

/-- C8 counterexample: with `min_bits = 0` the tile grid has the same
dimensions as the input, `recurseCompress` hands the inner MonoWriter an
identically-sized problem, and on a 64×64 input (4096 tiles ≥
RECURSE_THRESH_COUNT) the chain of recursive invocations through the
`bits = min_bits` branch never terminates. -/
theorem recursion_divergent_at_min_bits_zero :
    ¬ recursionTerminates 0 RECURSE_THRESH_COUNT (64, 64) := by
  intro hex
  obtain ⟨k, hk⟩ := hex
  have hit : (gridStep 0)^[k] (64, 64) = (64, 64) :=
    Function.iterate_fixed (gridStep_zero _) k
  rw [hit] at hk
  exact absurd hk (by decide)

/-- C8 amended: the recursion terminates whenever `min_bits ≥ 1` (tile
size at least 2) and the recursion threshold is at least 2: every
recursive invocation strictly shrinks the cell count until the tile
count falls below the threshold. -/
theorem recursion_terminates_of_min_bits_pos (b thresh : Nat)
    (hb : 1 ≤ b) (ht : 2 ≤ thresh) (d : Nat × Nat) :
    recursionTerminates b thresh d := by
  generalize hn : d.1 * d.2 = n
  induction n using Nat.strong_induction_on generalizing d with
  | _ n ih =>
    by_cases hstop : gridCount b d < thresh
    · exact ⟨0, by simpa using hstop⟩
    · push_neg at hstop
      set e := gridStep b d with he
      have hgc : gridCount b d = e.1 * e.2 := by rw [he]; rfl
      have h2 : 2 ≤ e.1 * e.2 := by omega
      have he1 : 1 ≤ e.1 := by
        rcases Nat.eq_zero_or_pos e.1 with h0 | h0
        · rw [h0, zero_mul] at h2; omega
        · exact h0
      have he2 : 1 ≤ e.2 := by
        rcases Nat.eq_zero_or_pos e.2 with h0 | h0
        · rw [h0, mul_zero] at h2; omega
        · exact h0
      have hor : 2 ≤ e.1 ∨ 2 ≤ e.2 := by
        by_contra hcon
        push_neg at hcon
        have hx1 : e.1 = 1 := by omega
        have hx2 : e.2 = 1 := by omega
        rw [hx1, hx2] at h2
        omega
      have he1' : e.1 = tilesDim d.1 b := by rw [he]; rfl
      have he2' : e.2 = tilesDim d.2 b := by rw [he]; rfl
      have hlt : e.1 * e.2 < d.1 * d.2 := by
        rcases hor with hcase | hcase
        · have hl1 : e.1 < d.1 := by
            rw [he1']
            exact tilesDim_lt d.1 b hb (he1' ▸ hcase)
          have hl2 : e.2 ≤ d.2 := by
            rw [he2']
            exact tilesDim_le d.2 b
          have hd2 : 0 < d.2 := lt_of_lt_of_le he2 hl2
          calc e.1 * e.2 ≤ e.1 * d.2 := Nat.mul_le_mul (le_refl _) hl2
            _ < d.1 * d.2 := (Nat.mul_lt_mul_right hd2).mpr hl1
        · have hl1 : e.2 < d.2 := by
            rw [he2']
            exact tilesDim_lt d.2 b hb (he2' ▸ hcase)
          have hl2 : e.1 ≤ d.1 := by
            rw [he1']
            exact tilesDim_le d.1 b
          have hd1 : 0 < d.1 := lt_of_lt_of_le he1 hl2
          calc e.1 * e.2 ≤ d.1 * e.2 := Nat.mul_le_mul hl2 (le_refl _)
            _ < d.1 * d.2 := (Nat.mul_lt_mul_left hd1).mpr hl1
      obtain ⟨k, hk⟩ := ih (e.1 * e.2) (by omega) e rfl
      refine ⟨k + 1, ?_⟩
      rw [Function.iterate_succ_apply, ← he]
      exact hk

/-- Witness for C8's amended claim at `min_bits = 1`, threshold 2, on a
4×4 input. -/
theorem recursion_terminates_witness :
    (1 : Nat) ≤ 1 ∧ (2 : Nat) ≤ 2 ∧ recursionTerminates 1 2 (4, 4) :=
  ⟨le_refl 1, le_refl 2,
   recursion_terminates_of_min_bits_pos 1 2 (le_refl 1) (le_refl 2) (4, 4)⟩

/-- Auxiliary for C1: with no mask and every tile normal, one cell of
`simulate`'s residual loop always takes the store-and-cost branch. -/
theorem simStep_reduce (s : MWState) (cm : CoderModel)
    (hnorm : ∀ a b, s.tiles a b < s.normalFilterCount)
    (hN : s.normalFilterCount ≤ 32)
    (x y : Nat) (c : ChaosSt) (n : Nat) (hm : s.mask x y = false) :
    simStep s cm y (c, n) x =
      (chaosStore s.numSyms (s.residuals x y) c,
       n + cm.symCost (chaosGet s.binCount c) (s.residuals x y)) := by
  have hf := hnorm (x >>> s.tileBitsX) (y >>> s.tileBitsY)
  unfold simStep tileOf
  rw [if_neg]
  intro hor
  rcases hor with h1 | h2 | h3
  · rw [MASK_TILE] at h1; omega
  · rw [hm] at h2; exact Bool.false_ne_true h2
  · omega

/-- Auxiliary for C1: with 1×1 tiles, no recursion, no mask and every
tile normal, one `write(x, y)` call on an unseen column emits the tile's
row-filter code and the cell's residual, storing into the chaos state
exactly as `simulate` does. -/
theorem write_reduce (s : MWState) (cm : CoderModel)
    (hbx : s.tileBitsX = 0) (hrec : s.recurse = false)
    (hnorm : ∀ a b, s.tiles a b < s.normalFilterCount)
    (hN : s.normalFilterCount ≤ 32)
    (x y : Nat) (w : WState)
    (hm : s.mask x y = false) (hs : w.seen x = false) :
    write s cm y w x =
      { chaos := chaosStore s.numSyms (s.residuals x y) w.chaos,
        seen := fun j => if j = x then true else w.seen j,
        prevFilter := if s.tileRowFilters (y >>> s.tileBitsY) = RF_PREV
                      then s.tiles x (y >>> s.tileBitsY) else w.prevFilter,
        writeFilter := s.tiles x (y >>> s.tileBitsY),
        ovh := w.ovh + cm.rfSymCost
          (if s.tileRowFilters (y >>> s.tileBitsY) = RF_PREV
           then rfCode s.filterCount w.prevFilter (s.tiles x (y >>> s.tileBitsY))
           else s.tiles x (y >>> s.tileBitsY)),
        dat := w.dat + cm.symCost (chaosGet s.binCount w.chaos)
                 (s.residuals x y) } := by
  have hf := hnorm x (y >>> s.tileBitsY)
  have hfm : ¬ s.tiles x (y >>> s.tileBitsY) = MASK_TILE := by
    rw [MASK_TILE]; omega
  have hfn : ¬ s.normalFilterCount ≤ s.tiles x (y >>> s.tileBitsY) := by omega
  unfold write
  rw [hm, hbx]
  simp only [Bool.false_eq_true, if_false, Nat.shiftRight_zero, hs,
    hrec, hfm, if_neg hfm]
  by_cases hrf : s.tileRowFilters (y >>> s.tileBitsY) = RF_PREV
  · simp only [hrf, if_pos rfl, if_neg hfn, ite_true]
  · simp only [if_neg hrf, if_neg hfn, ite_false]

/-- Auxiliary for C1: with no mask, 1×1 tiles and every tile normal, the
write pass over one row's cells accumulates exactly `simulate`'s
residual costs into `dat` and exactly `simulate`'s row-filter costs into
`ovh`, while threading the same chaos state and the same `prev` filter. -/
theorem row_fold_eq (s : MWState) (cm : CoderModel)
    (hbx : s.tileBitsX = 0) (hrec : s.recurse = false)
    (hmask : ∀ a b, s.mask a b = false)
    (hnorm : ∀ a b, s.tiles a b < s.normalFilterCount)
    (hN : s.normalFilterCount ≤ 32) (y : Nat) :
    ∀ (xs : List Nat), xs.Nodup →
      ∀ (w : WState) (n q : Nat),
        (∀ x ∈ xs, w.seen x = false) →
        (xs.foldl (write s cm y) w).chaos
            = (xs.foldl (simStep s cm y) (w.chaos, n)).1
        ∧ (xs.foldl (write s cm y) w).dat + n
            = w.dat + (xs.foldl (simStep s cm y) (w.chaos, n)).2
        ∧ (xs.foldl (write s cm y) w).ovh + q
            = w.ovh + (xs.foldl (rfStep s cm (y >>> s.tileBitsY))
                        (w.prevFilter, q)).2
        ∧ (xs.foldl (write s cm y) w).prevFilter
            = (xs.foldl (rfStep s cm (y >>> s.tileBitsY))
                (w.prevFilter, q)).1 := by
  intro xs
  induction xs with
  | nil =>
    intro _ w n q _
    exact ⟨rfl, rfl, rfl, rfl⟩
  | cons x rest ih =>
    intro hnd w n q hseen
    obtain ⟨hx, hnd'⟩ := List.nodup_cons.mp hnd
    have hm := hmask x y
    have hf := hnorm x (y >>> s.tileBitsY)
    have hfm : ¬ s.tiles x (y >>> s.tileBitsY) = MASK_TILE := by
      rw [MASK_TILE]; omega
    simp only [List.foldl_cons]
    rw [write_reduce s cm hbx hrec hnorm hN x y w hm (hseen x (List.mem_cons_self _ _))]
    rw [simStep_reduce s cm hnorm hN x y w.chaos n hm]
    have hrfstep : rfStep s cm (y >>> s.tileBitsY) (w.prevFilter, q) x =
        (if s.tileRowFilters (y >>> s.tileBitsY) = RF_PREV
         then s.tiles x (y >>> s.tileBitsY) else w.prevFilter,
         q + cm.rfSymCost
           (if s.tileRowFilters (y >>> s.tileBitsY) = RF_PREV
            then rfCode s.filterCount w.prevFilter (s.tiles x (y >>> s.tileBitsY))
            else s.tiles x (y >>> s.tileBitsY))) := by
      unfold rfStep
      rw [if_neg hfm]
      by_cases hrf : s.tileRowFilters (y >>> s.tileBitsY) = RF_PREV
      · simp only [hrf, ite_true, if_pos rfl]
      · simp only [if_neg hrf, ite_false]
    rw [hrfstep]
    have hseen' : ∀ x' ∈ rest,
        (if x' = x then true else w.seen x') = false := by
      intro x' hx'
      have hne : ¬ x' = x := fun hcon => hx (hcon ▸ hx')
      rw [if_neg hne]
      exact hseen x' (List.mem_cons_of_mem _ hx')
    have IH := ih hnd'
      { chaos := chaosStore s.numSyms (s.residuals x y) w.chaos,
        seen := fun j => if j = x then true else w.seen j,
        prevFilter := if s.tileRowFilters (y >>> s.tileBitsY) = RF_PREV
                      then s.tiles x (y >>> s.tileBitsY) else w.prevFilter,
        writeFilter := s.tiles x (y >>> s.tileBitsY),
        ovh := w.ovh + cm.rfSymCost
          (if s.tileRowFilters (y >>> s.tileBitsY) = RF_PREV
           then rfCode s.filterCount w.prevFilter (s.tiles x (y >>> s.tileBitsY))
           else s.tiles x (y >>> s.tileBitsY)),
        dat := w.dat + cm.symCost (chaosGet s.binCount w.chaos)
                 (s.residuals x y) }
      (n + cm.symCost (chaosGet s.binCount w.chaos) (s.residuals x y))
      (q + cm.rfSymCost
        (if s.tileRowFilters (y >>> s.tileBitsY) = RF_PREV
         then rfCode s.filterCount w.prevFilter (s.tiles x (y >>> s.tileBitsY))
         else s.tiles x (y >>> s.tileBitsY)))
      hseen'
    obtain ⟨IH1, IH2, IH3, IH4⟩ := IH
    dsimp only at IH1 IH2 IH3 IH4
    refine ⟨IH1, by omega, by omega, IH4⟩

/-- Auxiliary for C1: with 1×1 tiles and no recursion, every row is a
tile-row boundary, so `writeRowHeader` clears the seen flags, resets
`prev`, and emits exactly the 1-bit selector. -/
theorem rowHeader_reduce (s : MWState) (w : WState) (y : Nat)
    (hby : s.tileBitsY = 0) (hrec : s.recurse = false) :
    writeRowHeader s w y =
      ({ chaos := chaosStartRow w.chaos, seen := (fun _ => false),
         prevFilter := 0, writeFilter := w.writeFilter,
         ovh := w.ovh, dat := w.dat }, 1) := by
  unfold writeRowHeader
  rw [hby]
  simp only [Nat.shiftLeft_zero, Nat.mod_one, if_pos rfl, hrec,
    Bool.false_eq_true, if_false, if_true, Nat.shiftRight_zero]

/-- Auxiliary for C1: the full write pass accumulates, row by row,
exactly `simulate`'s residual costs, `simulate`'s row-filter costs, and
one header bit per row. -/
theorem pass_fold_eq (s : MWState) (cm : CoderModel)
    (hbx : s.tileBitsX = 0) (hby : s.tileBitsY = 0) (hrec : s.recurse = false)
    (hmask : ∀ a b, s.mask a b = false)
    (hnorm : ∀ a b, s.tiles a b < s.normalFilterCount)
    (hN : s.normalFilterCount ≤ 32)
    (htx : s.tilesX = s.sizeX) :
    ∀ (ys : List Nat) (w : WState) (hdr n q : Nat),
      (ys.foldl (writeRow s cm) (w, hdr)).1.chaos
          = (ys.foldl (simRow s cm) (w.chaos, n)).1
      ∧ (ys.foldl (writeRow s cm) (w, hdr)).1.dat + n
          = w.dat + (ys.foldl (simRow s cm) (w.chaos, n)).2
      ∧ (ys.foldl (writeRow s cm) (w, hdr)).1.ovh + q
          = w.ovh + ys.foldl (rfRow s cm) q
      ∧ (ys.foldl (writeRow s cm) (w, hdr)).2 = hdr + ys.length := by
  intro ys
  induction ys with
  | nil =>
    intro w hdr n q
    exact ⟨rfl, rfl, rfl, rfl⟩
  | cons y rest ih =>
    intro w hdr n q
    simp only [List.foldl_cons]
    have hwr : writeRow s cm (w, hdr) y =
        ((List.range s.sizeX).foldl (write s cm y)
          { chaos := chaosStartRow w.chaos, seen := (fun _ => false),
            prevFilter := 0, writeFilter := w.writeFilter,
            ovh := w.ovh, dat := w.dat }, hdr + 1) := by
      unfold writeRow
      rw [rowHeader_reduce s w y hby hrec]
    rw [hwr]
    have hrow := row_fold_eq s cm hbx hrec hmask hnorm hN y
      (List.range s.sizeX) (List.nodup_range _)
      { chaos := chaosStartRow w.chaos, seen := (fun _ => false),
        prevFilter := 0, writeFilter := w.writeFilter,
        ovh := w.ovh, dat := w.dat }
      n 0 (fun _ _ => rfl)
    obtain ⟨R1, R2, R3, R4⟩ := hrow
    dsimp only at R1 R2 R3 R4
    rw [hby, Nat.shiftRight_zero] at R3 R4
    have hsimrow : simRow s cm (w.chaos, n) y =
        ((List.range s.sizeX).foldl (simStep s cm y) (chaosStartRow w.chaos, n)) := by
      unfold simRow
      rfl
    have hrfrow : ∀ a, rfRow s cm a y =
        a + ((List.range s.sizeX).foldl (rfStep s cm y) (0, 0)).2 := by
      intro a
      unfold rfRow
      rw [htx]
    have IH := ih ((List.range s.sizeX).foldl (write s cm y)
        { chaos := chaosStartRow w.chaos, seen := (fun _ => false),
          prevFilter := 0, writeFilter := w.writeFilter,
          ovh := w.ovh, dat := w.dat })
      (hdr + 1)
      ((List.range s.sizeX).foldl (simStep s cm y) (chaosStartRow w.chaos, n)).2
      (q + ((List.range s.sizeX).foldl (rfStep s cm y) (0, 0)).2)
    obtain ⟨IH1, IH2, IH3, IH4⟩ := IH
    have hpair :
        (((List.range s.sizeX).foldl (write s cm y)
            { chaos := chaosStartRow w.chaos, seen := (fun _ => false),
              prevFilter := 0, writeFilter := w.writeFilter,
              ovh := w.ovh, dat := w.dat }).chaos,
         ((List.range s.sizeX).foldl (simStep s cm y)
            (chaosStartRow w.chaos, n)).2)
        = simRow s cm (w.chaos, n) y := by
      rw [R1, hsimrow]
    rw [hpair] at IH1 IH2
    refine ⟨IH1, by omega, ?_, by simp only [List.length_cons]; omega⟩
    rw [hrfrow q]
    omega

/-- C1 counterexample: on the concrete 1×1 all-normal state with an
exact coder whose per-bin table size even equals `simulate`'s
`5·num_syms` estimate, the actually emitted total is 27 bits while
`simulate()` returns 54: the claimed 0-bit tolerance fails
(`simulate` counts `7·normal_filter_count` where `writeTables` emits
`7·(normal_filter_count − SF_FIXED)`, and it misses the per-row selector
bits and the row-filter encoder's table). -/
theorem emitted_differs_from_simulate :
    emittedTotal exState exCoder = 27
    ∧ simulate exState exCoder = 54
    ∧ emittedTotal exState exCoder ≠ simulate exState exCoder := by decide

/-- C1 amended: `simulate()` is an estimate, not the exact emitted
count. With a deterministic coder, no recursion, 1×1 tiles (so the
write path's stale `_write_filter` and masked-cell fallthrough cannot
fire), no masked cells and every tile normal, the exact accounting is
`emitted + 7·SF_FIXED + binCount·5·num_syms
 = simulate + Σ tableBits + rfTableBits + size_y`:
`simulate` overcounts the filter indices by `7·SF_FIXED`, approximates
each chaos table as `5·num_syms` bits, and omits the row-filter
encoder's table and the per-tile-row selector bits. -/
theorem write_equals_simulate_corrected (s : MWState) (cm : CoderModel)
    (hbx : s.tileBitsX = 0) (hby : s.tileBitsY = 0)
    (hrec : s.recurse = false)
    (hmask : ∀ a b, s.mask a b = false)
    (hnorm : ∀ a b, s.tiles a b < s.normalFilterCount)
    (hN : s.normalFilterCount ≤ 32)
    (hsf : SF_FIXED ≤ s.normalFilterCount)
    (htx : s.tilesX = s.sizeX) (hty : s.tilesY = s.sizeY) :
    emittedTotal s cm + 7 * SF_FIXED + s.binCount * 5 * s.numSyms
      = simulate s cm + sumTableBits s cm + cm.rfTableBits + s.sizeY := by
  obtain ⟨P1, P2, P3, P4⟩ := pass_fold_eq s cm hbx hby hrec hmask hnorm hN htx
    (List.range s.sizeY) initialWState 0 0 0
  have hch : initialWState.chaos = chaosStart := rfl
  have hd0 : initialWState.dat = 0 := rfl
  have ho0 : initialWState.ovh = 0 := rfl
  rw [hch, hd0] at P2
  rw [ho0] at P3
  have hdat : (writePass s cm).1.dat = residBitsSim s cm := by
    unfold writePass residBitsSim
    omega
  have hovh : (writePass s cm).1.ovh = rfBitsSim s cm := by
    unfold writePass rfBitsSim
    rw [hty]
    omega
  have hhdr : (writePass s cm).2 = s.sizeY := by
    unfold writePass
    rw [List.length_range] at P4
    omega
  unfold emittedTotal simulate writeTables
  rw [hdat, hovh, hhdr, hrec]
  simp only [Bool.false_eq_true, if_false]
  have hsf4 : 4 ≤ s.normalFilterCount := hsf
  rw [show SF_FIXED = 4 from rfl]
  rcases Nat.eq_zero_or_pos (tileBitsFieldBC s.minBits s.maxBits) with h0 | h0
  · rw [h0]
    simp only [Nat.lt_irrefl, if_false]
    omega
  · rw [if_pos h0]
    omega

/-- Witness for C1's amended accounting identity on the concrete 1×1
state: `27 + 28 + 10 = 54 + 10 + 0 + 1`. -/
theorem write_equals_simulate_corrected_witness :
    emittedTotal exState exCoder + 7 * SF_FIXED
      + exState.binCount * 5 * exState.numSyms
      = simulate exState exCoder + sumTableBits exState exCoder
        + exCoder.rfTableBits + exState.sizeY :=
  write_equals_simulate_corrected exState exCoder rfl rfl rfl
    (fun _ _ => rfl) (fun _ _ => (by decide : (0 : Nat) < 4))
    (by decide) (by decide) rfl rfl

/-- Auxiliary for C4: the total width of a run of constant-width fields
is width times count. -/
theorem mapSnd_sum_eight (l : List Nat) :
    ((l.map (fun v => ((v % 256 : Nat), (8 : Nat)))).map Prod.snd).sum
      = 8 * l.length := by
  induction l with
  | nil => rfl
  | cons hd tl ih =>
    simp only [List.map_cons, List.sum_cons, ih, List.length_cons,
      Nat.mul_succ]
    omega

/-- Auxiliary for C4: the 7-bit filter-index fields likewise. -/
theorem mapSnd_sum_seven (g : Nat → Nat) (l : List Nat) :
    ((l.map (fun f => ((g f % 128 : Nat), (7 : Nat)))).map Prod.snd).sum
      = 7 * l.length := by
  induction l with
  | nil => rfl
  | cons hd tl ih =>
    simp only [List.map_cons, List.sum_cons, ih, List.length_cons,
      Nat.mul_succ]
    omega

/-- C4 counterexample: on the concrete state with
`sympal_filter_count = 0`, `writeTables` still emits the 4-bit field
(carrying 15), so the emitted header differs from the spec-described
header in which the field is absent. -/
theorem sympal_field_emitted_when_count_zero :
    exState.sympalFilterCount = 0
    ∧ headerFields exState ≠ headerFieldsSpec exState := by decide

/-- C4 amended: the 4-bit sympal-count field is always emitted
(MonoWriter.cpp:1080 is unconditional), carrying
`sympal_filter_count − 1` truncated to 4 bits — value 15 when the count
is 0 — and the 8-bit sympal constants alone are absent when the count is
0: the fixed header always measures
`tile_bits_field + 4 + 8·sympal_count + 5 + 7·(normal_count − SF_FIXED) + 4`
bits. -/
theorem writeTables_sympal_field_unconditional (s : MWState)
    (h : s.sympalValues.length = s.sympalFilterCount) :
    headerBitLen s
      = tileBitsFieldBC s.minBits s.maxBits + 4 + 8 * s.sympalFilterCount
        + 5 + 7 * (s.normalFilterCount - SF_FIXED) + 4
    ∧ (s.sympalFilterCount = 0 →
        sourceSympalFields s.sympalFilterCount s.sympalValues = [(15, 4)]) := by
  constructor
  · unfold headerBitLen headerFields sourceSympalFields
    rw [List.map_append, List.map_append, List.map_append,
      List.sum_append, List.sum_append, List.sum_append]
    rw [List.map_cons, List.sum_cons, List.map_cons, List.sum_cons,
      mapSnd_sum_eight, mapSnd_sum_seven, List.length_range', h]
    rcases Nat.eq_zero_or_pos (tileBitsFieldBC s.minBits s.maxBits) with h0 | h0
    · rw [h0]
      simp only [Nat.lt_irrefl, if_false, List.map_nil, List.sum_nil]
      simp only [List.map_cons, List.map_nil, List.sum_cons, List.sum_nil]
      omega
    · rw [if_pos h0]
      simp only [List.map_cons, List.map_nil, List.sum_cons, List.sum_nil]
      omega
  · intro hc
    have hv : s.sympalValues = [] := List.length_eq_zero.mp (by rw [h, hc])
    rw [hc, hv]
    decide

/-- Witness for C4's amended claim on the concrete no-sympal state:
the fixed header is 13 bits and the sympal portion is exactly the 4-bit
field with value 15. -/
theorem writeTables_sympal_field_witness :
    headerBitLen exState = 13
    ∧ (exState.sympalFilterCount = 0 →
        sourceSympalFields exState.sympalFilterCount exState.sympalValues
          = [(15, 4)]) :=
  writeTables_sympal_field_unconditional exState rfl

end MonoWriter

